import Mathlib

/-!
Shallow embedding of the PokePortfolio price-tracking core.

Sources embedded here:
* `src/server/priceTracker.ts` — `recordPricesWithRetry`, `MAX_RETRIES`,
  `RETRY_DELAY_MS` (the scheduler/retry controller with its `isRunning` mutex);
* `src/server/routes.ts` — `getCardPrice` (price-variant selection);
* `src/server/storage.ts` — `recordCardPrice`, `recordPortfolioValue`
  (day-bucketed delete-then-insert), `updatePortfolioCard`,
  `deletePortfolioCard`, `getAllUniqueCardIds`, `getAllUsersWithPortfolios`.

Modelling conventions:
* JS numbers that hold market prices and dollar totals are modelled as `ℚ`;
  `Number.prototype.toFixed(2)` is modelled by `toFixed2`.
* The async tracker is modelled as a deterministic function of an explicit
  environment (`Env`) supplying the results of every external call, an
  explicit mutable state (`TrackerState`: the process-wide `isRunning` flag
  plus a trace of observable effects), and the `attempt` counter.
  A `none` / `true` entry in the environment models the corresponding
  `await` rejecting (throwing); `try/catch/finally` becomes explicit
  control flow.  Crucially the embedding keeps the JS evaluation order of
  `return recordPricesWithRetry(attempt + 1)` inside `catch`: the recursive
  call receives the state with `isRunning` still `true`, and the `finally`
  assignment `isRunning = false` is applied to the state only after the
  recursive call has produced its value.
* Database timestamps are modelled on the America/Chicago local timeline in
  milliseconds, so the `toZonedTime`/`fromZonedTime` round trip of
  `storage.ts` composes to the identity and "today .. tomorrow" is the
  half-open day bucket containing `now`.
-/

namespace PokePortfolio

/-- `Number.prototype.toFixed(2)` on an exact rational dollar amount:
round to a whole number of cents, `⌊q * 100 + 1/2⌋`, computed on the
reduced numerator and denominator so it evaluates by kernel reduction
(rounding is exact on every value the tracker formats — prices already
carry at most two decimals), then print the cents with exactly two digits
after the decimal point. -/
def toFixed2 (q : ℚ) : String :=
  let c : Int := Int.ediv (200 * q.num + (q.den : Int)) (2 * (q.den : Int))
  let n : Nat := c.natAbs
  (if c < 0 then "-" else "")
    ++ toString (n / 100)
    ++ "."
    ++ (if n % 100 < 10 then "0" else "")
    ++ toString (n % 100)

/-! ## Price Source Adapter: `getCardPrice` (src/server/routes.ts:587-605) -/

/-- One named price variant of `card.tcgplayer.prices`; only the `market`
field is consulted by `getCardPrice`, and it may be absent. -/
structure PriceVariant where
  market : Option ℚ
deriving DecidableEq, Repr

/-- The `prices` object of the upstream payload.  The TypeScript key
`1stEditionHolofoil` (quoted in TypeScript) cannot start with a digit in
Lean and is spelled
`firstEditionHolofoil`. -/
structure TcgPrices where
  holofoil : Option PriceVariant
  reverseHolofoil : Option PriceVariant
  normal : Option PriceVariant
  firstEditionHolofoil : Option PriceVariant
  unlimitedHolofoil : Option PriceVariant
deriving DecidableEq, Repr

/-- The slice of the upstream `PokemonCard` payload that `getCardPrice`
reads: `card.tcgplayer?.prices`, both levels optional. -/
structure PokemonCard where
  tcgplayer : Option TcgPrices
deriving DecidableEq, Repr

/-- The `priceOptions` array of `getCardPrice`, in source order:
holofoil, 1stEditionHolofoil, unlimitedHolofoil, reverseHolofoil, normal
(each entry is `undefined` when the variant or its market price is absent). -/
def priceOptions (prices : TcgPrices) : List (Option ℚ) :=
  [ prices.holofoil.bind (·.market)
  , prices.firstEditionHolofoil.bind (·.market)
  , prices.unlimitedHolofoil.bind (·.market)
  , prices.reverseHolofoil.bind (·.market)
  , prices.normal.bind (·.market) ]

/-- `getCardPrice` (src/server/routes.ts:587-605): guard on
`card.tcgplayer?.prices`, then `priceOptions.find(p => p !== undefined && p > 0)`
and `validPrice || 0`. -/
def getCardPrice (card : PokemonCard) : ℚ :=
  match card.tcgplayer with
  | Option.none => 0
  | Option.some prices =>
    match (priceOptions prices).find? (fun po => po.elim false (fun p => 0 < p)) with
    | Option.some (Option.some p) => p
    | _ => 0

/-- Modelled from the spec: "the first variant with a defined,
strictly-positive price wins; if none qualify, price is 0", read as: drop
undefined entries, drop non-positive entries, take the head of what is left
of the priority-ordered list, defaulting to 0. -/
def getCardPriceSpec (card : PokemonCard) : ℚ :=
  match card.tcgplayer with
  | Option.none => 0
  | Option.some prices =>
    ((((priceOptions prices).filterMap id).filter (fun p => 0 < p)).headD 0)

/-! ## Scheduler/Retry Controller (src/server/priceTracker.ts) -/

/-- `const MAX_RETRIES = 5` (src/server/priceTracker.ts:8). -/
def MAX_RETRIES : Nat := 5

/-- `const RETRY_DELAY_MS = 7 * 60 * 1000` (src/server/priceTracker.ts:9). -/
def RETRY_DELAY_MS : Nat := 7 * 60 * 1000

/-- Observable effects of one tracker run, in execution order. -/
inductive Ev where
  /-- `storage.getAllUniqueCardIds()` was called (start of an attempt). -/
  | listCards
  /-- `getCardById(cardId)` was called during the given attempt. -/
  | fetchCard (attempt : Nat) (cardId : String)
  /-- `storage.recordCardPrice(cardId, price)` with the formatted price. -/
  | writeCardPrice (cardId : String) (price : String)
  /-- `await delay(ms)`. -/
  | delayMs (ms : Nat)
  /-- `storage.batchUpdatePortfolioCardPrices(updates)`. -/
  | batchUpdate (updates : List (String × String × String))
  /-- `storage.recordPortfolioValue(userId, totalValue)`. -/
  | writeValue (userId : String) (totalValue : String)
deriving DecidableEq, Repr

/-- One row of `getAllPortfolioCards(userId)` as consumed by the tracker:
only `id`, `cardId` and `quantity` are read in the valuation loop. -/
structure Holding where
  id : String
  cardId : String
  quantity : Nat
deriving DecidableEq, Repr

/-- Environment of one tracker run: the outcome of every external call.
`cards` is the result of `getAllUniqueCardIds()`; `fetch a c` is the
combined outcome of `getCardById`/`getCardPrice`/`recordCardPrice` for card
`c` during attempt `a` (`none` models the `await` chain rejecting — the
error is raised before the history write persists); `users` is the result
of `getAllUsersWithPortfolios()` (user ids); `holdings u` the result of
`getAllPortfolioCards(u)`; `userFail a u = true` models the processing of
user `u` in attempt `a` rejecting at its first `await`
(`getAllPortfolioCards`), which the source catches and logs.  The two
listing queries themselves are modelled as pure reads. -/
structure Env where
  cards : List String
  fetch : Nat → String → Option ℚ
  users : List String
  holdings : String → List Holding
  userFail : Nat → String → Bool

/-- The process-wide mutable state seen by `recordPricesWithRetry`:
`let isRunning = false` (src/server/priceTracker.ts:6) plus the trace of
observable effects performed so far. -/
structure TrackerState where
  isRunning : Bool
  trace : List Ev
deriving DecidableEq, Repr

/-- Result of the per-card fetch loop (src/server/priceTracker.ts:38-62)
over a list of card ids: the in-memory `priceMap`, the `failedCards` list,
and the effects performed, each in iteration order. -/
structure FetchResult where
  priceMap : List (String × ℚ)
  failed : List String
  events : List Ev
deriving Repr

/-- The fetch loop `for (const cardId of uniqueCardIds) { ... }`
(src/server/priceTracker.ts:41-62): on success, record the price history,
extend the price map, and `await delay(100)`; on a thrown failure, push the
card id onto `failedCards` and continue with the next card. -/
def fetchLoop (env : Env) (attempt : Nat) : List String → FetchResult
  | [] => ⟨[], [], []⟩
  | c :: cs =>
    let r := fetchLoop env attempt cs
    match env.fetch attempt c with
    | Option.some p =>
      ⟨(c, p) :: r.priceMap, r.failed,
        Ev.fetchCard attempt c :: Ev.writeCardPrice c (toFixed2 p)
          :: Ev.delayMs 100 :: r.events⟩
    | Option.none =>
      ⟨r.priceMap, c :: r.failed, Ev.fetchCard attempt c :: r.events⟩

/-- `priceMap.get(cardId)` on the association list built by `fetchLoop`
(the card ids handed to it are distinct, so first match is the match). -/
def mapGet (pm : List (String × ℚ)) (cardId : String) : Option ℚ :=
  (pm.find? (fun e => e.1 = cardId)).map (·.2)

/-- The per-user valuation loop body accumulator
(src/server/priceTracker.ts:79-95): walk the holdings of the user in order; for
each holding whose card is in the price map, push a price update and add
`price * quantity` to the running total. -/
def valuateFrom (pm : List (String × ℚ)) (userId : String)
    (acc : List (String × String × String) × ℚ) :
    List Holding → List (String × String × String) × ℚ
  | [] => acc
  | h :: hs =>
    match mapGet pm h.cardId with
    | Option.some p =>
      valuateFrom pm userId
        (acc.1 ++ [(h.id, userId, toFixed2 p)], acc.2 + p * (h.quantity : ℚ)) hs
    | Option.none => valuateFrom pm userId acc hs

/-- `priceUpdates` and `totalValue` for one user
(src/server/priceTracker.ts:79-95), starting from the empty update list and
`totalValue = 0`. -/
def valuateUser (pm : List (String × ℚ)) (userId : String)
    (hs : List Holding) : List (String × String × String) × ℚ :=
  valuateFrom pm userId ([], 0) hs

/-- The per-user half of the valuation phase
(src/server/priceTracker.ts:73-108) over a list of user ids: a user whose
processing rejects (`userFail`) contributes no effects (the `catch` only
logs); otherwise the batch price update is issued when the update list is
non-empty, followed by the portfolio-value history write. -/
def valuationUsers (env : Env) (attempt : Nat) (pm : List (String × ℚ)) :
    List String → List Ev
  | [] => []
  | u :: us =>
    (if env.userFail attempt u then []
     else
       let r := valuateUser pm u (env.holdings u)
       (if r.1.length > 0 then [Ev.batchUpdate r.1] else [])
         ++ [Ev.writeValue u (toFixed2 r.2)])
      ++ valuationUsers env attempt pm us

/-- The whole valuation phase: `for (const user of users) { ... }` over
`getAllUsersWithPortfolios()` (src/server/priceTracker.ts:71-108). -/
def valuationPhase (env : Env) (attempt : Nat)
    (pm : List (String × ℚ)) : List Ev :=
  valuationUsers env attempt pm env.users

/-- The `try` block of `recordPricesWithRetry`
(src/server/priceTracker.ts:24-111) as a pure attempt: first component
`true` iff the block threw (a non-empty `failedCards` list, line 65-67),
second component the effects performed.  The zero-card early `return true`
(line 30-33) performs only the listing; a successful fetch pass continues
into the valuation phase and returns `true`. -/
def attemptResult (env : Env) (attempt : Nat) : Bool × List Ev :=
  if env.cards.isEmpty then
    (false, [Ev.listCards])
  else
    let r := fetchLoop env attempt env.cards
    if r.failed.isEmpty then
      (false, Ev.listCards :: r.events ++ valuationPhase env attempt r.priceMap)
    else
      (true, Ev.listCards :: r.events)

/-- `recordPricesWithRetry(attempt)` (src/server/priceTracker.ts:15-128).
Guard: if `isRunning` the call logs and returns `false` with no effect.
Otherwise set `isRunning`, run the attempt; on success return `true`; on a
thrown attempt with `attempt < MAX_RETRIES`, `await delay(RETRY_DELAY_MS)`
and return the recursive call — evaluated while `isRunning` is still
`true`, exactly as in the source, where `finally { isRunning = false }`
runs only after the `return` expression has been computed.  Every
non-guarded exit applies that `finally` to the state it returns. -/
def recordPricesWithRetry (env : Env) (attempt : Nat)
    (s : TrackerState) : Bool × TrackerState :=
  if s.isRunning then
    (false, s)
  else
    let body := attemptResult env attempt
    if body.1 then
      if h : attempt < MAX_RETRIES then
        let s3 : TrackerState :=
          ⟨true, s.trace ++ body.2 ++ [Ev.delayMs RETRY_DELAY_MS]⟩
        let r := recordPricesWithRetry env (attempt + 1) s3
        (r.1, ⟨false, r.2.trace⟩)
      else
        (false, ⟨false, s.trace ++ body.2⟩)
    else
      (true, ⟨false, s.trace ++ body.2⟩)
termination_by MAX_RETRIES - attempt
decreasing_by omega

/-- A top-level trigger (`triggerManualUpdate` or the cron callback,
src/server/priceTracker.ts:134-141,160-163) calls
`recordPricesWithRetry()` with the default `attempt = 1`. -/
def triggerUpdate (env : Env) (s : TrackerState) : Bool × TrackerState :=
  recordPricesWithRetry env 1 s

/-! ## Persistence Gateway (src/server/storage.ts)

Timestamps below live on the America/Chicago local timeline in
milliseconds, so the `toZonedTime` / `fromZonedTime` pair of
`recordCardPrice` / `recordPortfolioValue` composes to the identity and
the `[today, tomorrow)` window computed there is exactly the millisecond
range of the Chicago calendar day containing `now`. -/

/-- Milliseconds per calendar day. -/
def MS_PER_DAY : Nat := 86400000

/-- The Chicago calendar-day index of a Chicago-local timestamp. -/
def chicagoDay (t : Nat) : Nat := t / MS_PER_DAY

/-- One row of `card_price_history` / `portfolio_value_history` as the
delete-then-insert logic sees it: the key column (`cardId` respectively
`userId`), the stored decimal string, and `recordedAt`. -/
structure HistRecord where
  key : String
  value : String
  recordedAt : Nat
deriving DecidableEq, Repr

/-- The shared body of `recordCardPrice` (src/server/storage.ts:139-163)
and `recordPortfolioValue` (src/server/storage.ts:176-200): compute
the Chicago midnight opening the day of `now` and the next midnight,
delete every record of this key
with `today <= recordedAt < tomorrow`, then insert the new record with
`recordedAt` defaulting to `now`. -/
def dayBucketUpsert (key value : String) (now : Nat)
    (tbl : List HistRecord) : List HistRecord :=
  let today := chicagoDay now * MS_PER_DAY
  let tomorrow := today + MS_PER_DAY
  (tbl.filter (fun r =>
      ¬(r.key = key ∧ today ≤ r.recordedAt ∧ r.recordedAt < tomorrow)))
    ++ [⟨key, value, now⟩]

/-- `recordCardPrice(cardId, price)` (src/server/storage.ts:139-163) acting
on the `card_price_history` table at Chicago-local time `now`. -/
def recordCardPrice (cardId price : String) (now : Nat)
    (tbl : List HistRecord) : List HistRecord :=
  dayBucketUpsert cardId price now tbl

/-- `recordPortfolioValue(userId, totalValue)`
(src/server/storage.ts:176-200) acting on the `portfolio_value_history`
table at Chicago-local time `now`. -/
def recordPortfolioValue (userId totalValue : String) (now : Nat)
    (tbl : List HistRecord) : List HistRecord :=
  dayBucketUpsert userId totalValue now tbl

/-- One row of the `portfolio_cards` table (src/shared/schema.ts:22-33).
`userId` is nullable (rows can exist without an owner); `cardNumber` is
nullable; the decimal columns are stored as strings. -/
structure PRow where
  id : String
  userId : Option String
  cardId : String
  cardName : String
  setName : String
  cardNumber : Option String
  imageUrl : String
  quantity : Nat
  purchasePrice : String
  currentPrice : String
deriving DecidableEq, Repr

/-- A `Partial<InsertPortfolioCard>` update object: absent fields leave the
row unchanged (`userId` is never part of it — the schema omits it and the
route strips it). -/
structure RowUpdate where
  cardId : Option String := Option.none
  cardName : Option String := Option.none
  setName : Option String := Option.none
  cardNumber : Option (Option String) := Option.none
  imageUrl : Option String := Option.none
  quantity : Option Nat := Option.none
  purchasePrice : Option String := Option.none
  currentPrice : Option String := Option.none
deriving DecidableEq, Repr

/-- `db.update(portfolioCards).set(updates)` applied to one row. -/
def applyUpdate (u : RowUpdate) (r : PRow) : PRow :=
  { r with
    cardId := u.cardId.getD r.cardId
    cardName := u.cardName.getD r.cardName
    setName := u.setName.getD r.setName
    cardNumber := u.cardNumber.getD r.cardNumber
    imageUrl := u.imageUrl.getD r.imageUrl
    quantity := u.quantity.getD r.quantity
    purchasePrice := u.purchasePrice.getD r.purchasePrice
    currentPrice := u.currentPrice.getD r.currentPrice }

/-- Does a row match `portfolioCards.id = id AND portfolioCards.userId =
userId`?  A SQL comparison with a concrete `userId` is never satisfied by
a NULL `user_id` column, hence `Option.some`. -/
def rowMatches (id userId : String) (r : PRow) : Prop :=
  r.id = id ∧ r.userId = Option.some userId

instance (id userId : String) (r : PRow) : Decidable (rowMatches id userId r) :=
  inferInstanceAs (Decidable (_ ∧ _))

/-- `updatePortfolioCard(id, userId, updates)`
(src/server/storage.ts:125-132): update rows matching both `id` and
`userId`, returning (`[updated]`) the first updated row, `undefined` when
nothing matched. -/
def updatePortfolioCard (id userId : String) (u : RowUpdate)
    (tbl : List PRow) : Option PRow × List PRow :=
  ( ((tbl.filter (fun r => rowMatches id userId r)).head?).map (applyUpdate u)
  , tbl.map (fun r => if rowMatches id userId r then applyUpdate u r else r) )

/-- `deletePortfolioCard(id, userId)` (src/server/storage.ts:134-137):
delete rows matching both `id` and `userId`, then `return true`
unconditionally. -/
def deletePortfolioCard (id userId : String)
    (tbl : List PRow) : Bool × List PRow :=
  (true, tbl.filter (fun r => ¬ rowMatches id userId r))

/-- One row of the `users` table as consumed by the tracker. -/
structure UserRow where
  id : String
  username : String
deriving DecidableEq, Repr

/-- `getAllUniqueCardIds()` (src/server/storage.ts:221-227):
`selectDistinct({ cardId })` over all portfolio rows — no filter on
`userId`, so rows with a NULL owner contribute their card id too. -/
def getAllUniqueCardIds (tbl : List PRow) : List String :=
  (tbl.map (·.cardId)).dedup

/-- `getAllUsersWithPortfolios()` (src/server/storage.ts:229-241):
`selectDistinct({ userId })` over portfolio rows, drop NULL ids, and when
any remain select the users with those ids. -/
def getAllUsersWithPortfolios (tbl : List PRow)
    (users : List UserRow) : List UserRow :=
  let userIds := ((tbl.map (·.userId)).dedup).filterMap id
  if userIds.isEmpty then []
  else users.filter (fun u => userIds.contains u.id)

/-- The tracker environment induced by a database: `cards` and `users`
are the two listing queries, and `holdings uid` is
`getAllPortfolioCards(uid)` restricted to the fields the tracker reads
(rows whose `user_id` equals the concrete `uid`). -/
def envOfDb (tbl : List PRow) (users : List UserRow)
    (fetch : Nat → String → Option ℚ)
    (userFail : Nat → String → Bool) : Env :=
  { cards := getAllUniqueCardIds tbl
  , fetch := fetch
  , users := (getAllUsersWithPortfolios tbl users).map (·.id)
  , holdings := fun uid =>
      (tbl.filter (fun r => r.userId = Option.some uid)).map
        (fun r => ⟨r.id, r.cardId, r.quantity⟩)
  , userFail := userFail }

/-! ## Auxiliary observers and concrete test fixtures -/

/-- The card ids passed to `getCardById`, in order, of a trace. -/
def fetchedCards (evs : List Ev) : List String :=
  evs.filterMap (fun ev =>
    match ev with
    | Ev.fetchCard _ c => Option.some c
    | _ => Option.none)

/-- The `(cardId, price)` pairs handed to `recordCardPrice`, in order. -/
def cardWrites (evs : List Ev) : List (String × String) :=
  evs.filterMap (fun ev =>
    match ev with
    | Ev.writeCardPrice c p => Option.some (c, p)
    | _ => Option.none)

/-- Is this effect part of the per-user valuation phase (a portfolio batch
update or a portfolio-value history write)? -/
def isValuationEv : Ev → Bool
  | Ev.batchUpdate _ => true
  | Ev.writeValue _ _ => true
  | _ => false

/-- Every portfolio-directed effect in the event is scoped to one of the
given user ids: batch updates only carry rows keyed `(id, userId)` with
`userId` in the list, and portfolio-value writes are keyed by a user id in
the list.  Other effects touch no portfolio row. -/
def evOwnedBy (users : List String) : Ev → Prop
  | Ev.batchUpdate l => ∀ e ∈ l, e.2.1 ∈ users
  | Ev.writeValue u _ => u ∈ users
  | _ => True

/-- Fixture: one tracked card whose fetch rejects on every attempt. -/
def envAllFail : Env :=
  { cards := ["card-1"]
  , fetch := fun _ _ => Option.none
  , users := []
  , holdings := fun _ => []
  , userFail := fun _ _ => false }

/-- Fixture: two tracked cards, cardA always fetches at $10, cardB always
rejects. -/
def envMixed : Env :=
  { cards := ["cardA", "cardB"]
  , fetch := fun _ c => if c = "cardA" then Option.some 10 else Option.none
  , users := []
  , holdings := fun _ => []
  , userFail := fun _ _ => false }

/-- Fixture: one card fetching at $10 and one user holding two copies,
whose valuation-phase processing rejects at every attempt. -/
def envOk : Env :=
  { cards := ["cardA"]
  , fetch := fun _ _ => Option.some 10
  , users := ["user-1"]
  , holdings := fun _ => [⟨"idA", "cardA", 2⟩]
  , userFail := fun _ _ => true }

/-- Fixture: a portfolio row owned by user `u-bob`. -/
def rowBob : PRow :=
  ⟨"h1", Option.some "u-bob", "c1", "Pikachu", "Base Set", Option.none,
    "img", 1, "1.00", "2.00"⟩

/-- Fixture: a portfolio row with a NULL owner (created before signup). -/
def rowNull : PRow :=
  ⟨"h0", Option.none, "c0", "Eevee", "Jungle", Option.none,
    "img0", 2, "3.00", "4.00"⟩

/-- Fixture: the users table holding only `u-bob`. -/
def usersDb : List UserRow := [⟨"u-bob", "bob"⟩]

/-- A history record for this key on this (Chicago) calendar day. -/
def sameKeyDay (key : String) (d : Nat) (r : HistRecord) : Prop :=
  r.key = key ∧ chicagoDay r.recordedAt = d

instance (key : String) (d : Nat) (r : HistRecord) :
    Decidable (sameKeyDay key d r) :=
  inferInstanceAs (Decidable (_ ∧ _))

/-! ## Lemmas -/

/-- `Array.prototype.find` with the defined-and-positive predicate against
the filter/head reading: both pick the first defined, strictly positive
entry. -/
theorem findPos_eq (l : List (Option ℚ)) :
    (match l.find? (fun po => po.elim false (fun p => 0 < p)) with
     | Option.some (Option.some p) => p
     | _ => (0 : ℚ))
      = ((l.filterMap id).filter (fun p => 0 < p)).headD 0 := by
  induction l with
  | nil => rfl
  | cons hd tl ih =>
    cases hd with
    | none => simpa [List.find?] using ih
    | some p =>
      by_cases hp : (0 : ℚ) < p
      · simp [List.find?, hp]
      · simp [List.find?, hp, ih]

/-- Unfolding helper: the guarded entry of `recordPricesWithRetry` — a call
finding `isRunning` set returns `false` and leaves the state untouched. -/
theorem rpwr_of_isRunning (env : Env) (attempt : Nat) (s : TrackerState)
    (h : s.isRunning = true) :
    recordPricesWithRetry env attempt s = (false, s) := by
  rw [recordPricesWithRetry]
  simp [h]

/-- Unfolding helper: one full evaluation of `recordPricesWithRetry` from
an idle state.  The recursive retry call finds `isRunning` still set (the
`finally` reset has not yet happened in the source evaluation order), so it
contributes nothing beyond the retry delay: the cycle performs exactly one
attempt no matter how `attempt` compares to `MAX_RETRIES`. -/
theorem rpwr_idle_step (env : Env) (attempt : Nat) (t : List Ev) :
    recordPricesWithRetry env attempt ⟨false, t⟩
      = if (attemptResult env attempt).1 then
          if attempt < MAX_RETRIES then
            (false, ⟨false, t ++ (attemptResult env attempt).2
              ++ [Ev.delayMs RETRY_DELAY_MS]⟩)
          else
            (false, ⟨false, t ++ (attemptResult env attempt).2⟩)
        else
          (true, ⟨false, t ++ (attemptResult env attempt).2⟩) := by
  rw [recordPricesWithRetry]
  by_cases hb : (attemptResult env attempt).1
  · by_cases ha : attempt < MAX_RETRIES
    · simp [hb, ha, rpwr_of_isRunning]
    · simp [hb, ha]
  · simp [hb]

/-- The fetch loop fetches every card in the list, in order, no matter
which fetches reject. -/
theorem fetchLoop_fetched (env : Env) (a : Nat) (cs : List String) :
    fetchedCards (fetchLoop env a cs).events = cs := by
  induction cs with
  | nil => rfl
  | cons c cs ih =>
    cases h : env.fetch a c <;>
      simp [fetchLoop, h, fetchedCards, List.filterMap] at ih ⊢ <;>
      simpa [fetchedCards] using ih

/-- The failed list collects exactly the cards whose fetch rejected, in
order. -/
theorem fetchLoop_failed (env : Env) (a : Nat) (cs : List String) :
    (fetchLoop env a cs).failed = cs.filter (fun c => (env.fetch a c).isNone) := by
  induction cs with
  | nil => rfl
  | cons c cs ih =>
    cases h : env.fetch a c <;> simp [fetchLoop, h, ih]

/-- The price-history writes performed by the fetch loop are exactly the
fetched prices of the cards whose fetch succeeded, in order. -/
theorem fetchLoop_writes (env : Env) (a : Nat) (cs : List String) :
    cardWrites (fetchLoop env a cs).events
      = cs.filterMap (fun c => (env.fetch a c).map (fun p => (c, toFixed2 p))) := by
  induction cs with
  | nil => rfl
  | cons c cs ih =>
    cases h : env.fetch a c <;> simp [fetchLoop, h, cardWrites] at ih ⊢ <;>
      simpa [cardWrites] using ih

/-- The in-memory price map built by the fetch loop holds exactly the
successfully fetched prices, in order. -/
theorem fetchLoop_priceMap (env : Env) (a : Nat) (cs : List String) :
    (fetchLoop env a cs).priceMap
      = cs.filterMap (fun c => (env.fetch a c).map (fun p => (c, p))) := by
  induction cs with
  | nil => rfl
  | cons c cs ih =>
    cases h : env.fetch a c <;> simp [fetchLoop, h, ih]

/-- Shape of fetch-loop events: a fetch of a listed card, a price-history
write of a successful fetch, or the inter-request delay — never a
valuation-phase effect. -/
theorem fetchLoop_events_shape (env : Env) (a : Nat) (cs : List String) :
    ∀ ev ∈ (fetchLoop env a cs).events,
      (∃ c, c ∈ cs ∧ ev = Ev.fetchCard a c)
      ∨ (∃ c p, env.fetch a c = Option.some p
          ∧ ev = Ev.writeCardPrice c (toFixed2 p))
      ∨ ev = Ev.delayMs 100 := by
  induction cs with
  | nil => intro ev h; simp [fetchLoop] at h
  | cons c cs ih =>
    intro ev hev
    cases h : env.fetch a c <;> rw [fetchLoop] at hev <;> simp [h] at hev
    · rcases hev with rfl | hev
      · exact Or.inl ⟨c, by simp⟩
      · rcases ih ev hev with ⟨d, hd, rfl⟩ | h2 | h3
        · exact Or.inl ⟨d, by simp [hd]⟩
        · exact Or.inr (Or.inl h2)
        · exact Or.inr (Or.inr h3)
    · rcases hev with rfl | rfl | rfl | hev
      · exact Or.inl ⟨c, by simp⟩
      · exact Or.inr (Or.inl ⟨c, _, h, rfl⟩)
      · exact Or.inr (Or.inr rfl)
      · rcases ih ev hev with ⟨d, hd, rfl⟩ | h2 | h3
        · exact Or.inl ⟨d, by simp [hd]⟩
        · exact Or.inr (Or.inl h2)
        · exact Or.inr (Or.inr h3)

/-- A successful fetch of a listed card leaves its price-history write in
the fetch-loop events. -/
theorem fetchLoop_write_mem (env : Env) (a : Nat) {cs : List String}
    {c : String} {p : ℚ} (hc : c ∈ cs) (hp : env.fetch a c = Option.some p) :
    Ev.writeCardPrice c (toFixed2 p) ∈ (fetchLoop env a cs).events := by
  induction cs with
  | nil => simp at hc
  | cons d cs ih =>
    rcases List.mem_cons.mp hc with rfl | hmem
    · rw [fetchLoop]
      simp [hp]
    · cases h : env.fetch a d <;> rw [fetchLoop] <;> simp [h, ih hmem]

/-- An attempt throws (first component `true`) exactly when its failed
list is non-empty. -/
theorem attemptResult_throws_iff (env : Env) (a : Nat) :
    (attemptResult env a).1 = true ↔ (fetchLoop env a env.cards).failed ≠ [] := by
  unfold attemptResult
  by_cases hc : env.cards.isEmpty
  · have hnil : env.cards = [] := List.isEmpty_iff.mp hc
    simp [hc, hnil, fetchLoop]
  · by_cases hf : (fetchLoop env a env.cards).failed.isEmpty
    · simp [hc, hf, List.isEmpty_iff.mp hf]
    · simp [hc, hf]
      exact fun h => hf (by simp [h])

/-- A throwing attempt returns exactly the listing event followed by the
fetch-loop events: the valuation phase is never reached. -/
theorem attemptResult_of_failed (env : Env) (a : Nat)
    (h : (fetchLoop env a env.cards).failed ≠ []) :
    attemptResult env a = (true, Ev.listCards :: (fetchLoop env a env.cards).events) := by
  have hcs : env.cards.isEmpty = false := by
    rcases hc : env.cards with _ | ⟨d, ds⟩
    · exact absurd (by simp [hc, fetchLoop]) h
    · rfl
  unfold attemptResult
  simp [hcs, h]

/-- A successful fetch of a listed card leaves its price-history write
among the events of the attempt, whether or not other cards failed. -/
theorem attemptResult_write_mem (env : Env) (a : Nat) {c : String} {p : ℚ}
    (hc : c ∈ env.cards) (hp : env.fetch a c = Option.some p) :
    Ev.writeCardPrice c (toFixed2 p) ∈ (attemptResult env a).2 := by
  have hcs : env.cards.isEmpty = false := by
    rcases hl : env.cards with _ | ⟨d, ds⟩
    · rw [hl] at hc; simp at hc
    · rfl
  have hw := fetchLoop_write_mem env a hc hp
  unfold attemptResult
  by_cases hf : (fetchLoop env a env.cards).failed.isEmpty <;>
    simp [hcs, hf, hw]

/-- Every price-update row queued by the valuation accumulator for a user
carries that user id. -/
theorem valuateFrom_updates_user (pm : List (String × ℚ)) (u : String)
    (acc : List (String × String × String) × ℚ) (hs : List Holding)
    (hacc : ∀ e ∈ acc.1, e.2.1 = u) :
    ∀ e ∈ (valuateFrom pm u acc hs).1, e.2.1 = u := by
  induction hs generalizing acc with
  | nil => exact hacc
  | cons h hs ih =>
    rw [valuateFrom]
    cases hm : mapGet pm h.cardId with
    | none => exact ih acc hacc
    | some p =>
      refine ih _ ?_
      intro e he
      rcases List.mem_append.mp he with h1 | h2
      · exact hacc e h1
      · simp at h2; simp [h2]

/-- The valuation loop over a user-id list only emits effects owned by
those users (given they all belong to `users0`). -/
theorem valuationUsers_owned (env : Env) (a : Nat) (pm : List (String × ℚ))
    (users0 : List String) :
    ∀ us : List String, (∀ u ∈ us, u ∈ users0) →
      ∀ ev ∈ valuationUsers env a pm us, evOwnedBy users0 ev := by
  intro us
  induction us with
  | nil => intro _ ev hev; simp [valuationUsers] at hev
  | cons u us ih =>
    intro hsub ev hev
    rw [valuationUsers] at hev
    rcases List.mem_append.mp hev with h1 | h2
    · by_cases hf : env.userFail a u
      · simp [hf] at h1
      · simp only [hf, if_false, Bool.false_eq_true] at h1
        rcases List.mem_append.mp h1 with hb | hw
        · by_cases hlen : (valuateUser pm u (env.holdings u)).1.length > 0
          · simp only [hlen, if_true] at hb
            simp at hb
            subst hb
            intro e he
            rw [valuateFrom_updates_user pm u _ _ (by simp) e he]
            exact hsub u (by simp)
          · simp [hlen] at hb
        · simp at hw
          subst hw
          show u ∈ users0
          exact hsub u (by simp)
    · exact ih (fun v hv => hsub v (List.mem_cons_of_mem _ hv)) ev h2

/-- A user in the list whose processing does not reject gets its
portfolio-value history write emitted by the valuation loop. -/
theorem valuationUsers_writeValue_mem (env : Env) (a : Nat)
    (pm : List (String × ℚ)) :
    ∀ us : List String, ∀ u ∈ us, env.userFail a u = false →
      Ev.writeValue u (toFixed2 (valuateUser pm u (env.holdings u)).2)
        ∈ valuationUsers env a pm us := by
  intro us
  induction us with
  | nil => intro u hu; simp at hu
  | cons v us ih =>
    intro u hu hf
    rw [valuationUsers]
    rcases List.mem_cons.mp hu with rfl | hmem
    · exact List.mem_append_left _ (by simp [hf])
    · exact List.mem_append_right _ (ih u hmem hf)

/-- All attempt events are owned: fetch-phase events touch no portfolio
row, and valuation-phase events are scoped to the listed users. -/
theorem attemptResult_events_owned (env : Env) (a : Nat)
    (users0 : List String) (hsub : ∀ u ∈ env.users, u ∈ users0) :
    ∀ ev ∈ (attemptResult env a).2, evOwnedBy users0 ev := by
  intro ev hev
  have hfetch : ∀ ev ∈ (fetchLoop env a env.cards).events, evOwnedBy users0 ev := by
    intro ev hev
    rcases fetchLoop_events_shape env a env.cards ev hev with
      ⟨c, _, rfl⟩ | ⟨c, p, _, rfl⟩ | rfl <;> trivial
  unfold attemptResult at hev
  by_cases hc : env.cards.isEmpty
  · simp [hc] at hev
    subst hev; trivial
  · by_cases hf : (fetchLoop env a env.cards).failed.isEmpty <;>
      simp only [hc, hf, if_false, if_true, Bool.false_eq_true] at hev
    · rcases List.mem_cons.mp hev with rfl | hev
      · trivial
      · rcases List.mem_append.mp hev with h1 | h2
        · exact hfetch ev h1
        · exact valuationUsers_owned env a _ users0 env.users hsub ev h2
    · rcases List.mem_cons.mp hev with rfl | hev
      · trivial
      · exact hfetch ev hev

/-- Every effect in the final trace of an idle-started run is owned by the
listed users, provided the initial trace is. -/
theorem rpwr_trace_owned (env : Env) (users0 : List String)
    (hsub : ∀ u ∈ env.users, u ∈ users0) (a : Nat) (t : List Ev)
    (ht : ∀ ev ∈ t, evOwnedBy users0 ev) :
    ∀ ev ∈ (recordPricesWithRetry env a ⟨false, t⟩).2.trace,
      evOwnedBy users0 ev := by
  rw [rpwr_idle_step]
  have hbody := attemptResult_events_owned env a users0 hsub
  intro ev hev
  by_cases hb : (attemptResult env a).1 <;>
    simp only [hb, if_true, if_false, Bool.false_eq_true] at hev
  · by_cases ha : a < MAX_RETRIES <;> simp only [ha, if_true, if_false] at hev <;>
      simp at hev
    · rcases hev with h1 | h2 | rfl
      · exact ht ev h1
      · exact hbody ev h2
      · trivial
    · rcases hev with h1 | h2
      · exact ht ev h1
      · exact hbody ev h2
  · simp at hev
    rcases hev with h1 | h2
    · exact ht ev h1
    · exact hbody ev h2

/-- Every attempt-1 event appears in the final trace of an idle-started
run. -/
theorem rpwr_mem_attempt_events (env : Env) (t : List Ev) (ev : Ev)
    (hev : ev ∈ (attemptResult env 1).2) :
    ev ∈ (recordPricesWithRetry env 1 ⟨false, t⟩).2.trace := by
  rw [rpwr_idle_step]
  by_cases hb : (attemptResult env 1).1 <;>
    by_cases ha : (1 : Nat) < MAX_RETRIES <;>
    simp [hb, ha, hev]

/-- Closed form of the valuation accumulator: queued updates are the
priced holdings in order (tagged with the user id and the two-decimal
price), and the total adds `price * quantity` over exactly those
holdings. -/
theorem valuateFrom_spec (pm : List (String × ℚ)) (u : String)
    (hs : List Holding) :
    ∀ acc : List (String × String × String) × ℚ,
      valuateFrom pm u acc hs
        = (acc.1 ++ hs.filterMap (fun h => (mapGet pm h.cardId).map
              (fun p => (h.id, u, toFixed2 p))),
           acc.2 + (hs.filterMap (fun h => (mapGet pm h.cardId).map
              (fun p => p * (h.quantity : ℚ)))).sum) := by
  induction hs with
  | nil => intro acc; simp [valuateFrom]
  | cons h hs ih =>
    intro acc
    rw [valuateFrom]
    cases hm : mapGet pm h.cardId with
    | none => simp [hm, ih]
    | some p => simp [hm, ih, add_assoc]

/-! ## Claims -/

/-- C5.  `getCardPrice` is a pure, deterministic function of the card
payload (it is a Lean function of `card` alone), and it implements the
spec reading of the variant-priority rule: the market price of the first
variant in the order holofoil, 1stEditionHolofoil, unlimitedHolofoil,
reverseHolofoil, normal whose market price is defined and strictly
positive, and `0` when no variant qualifies — in particular when
`card.tcgplayer?.prices` is absent, where `getCardPriceSpec` returns `0`
by its first match arm. -/
theorem c5_getCardPrice_priority (card : PokemonCard) :
    getCardPrice card = getCardPriceSpec card := by
  unfold getCardPrice getCardPriceSpec
  cases card.tcgplayer with
  | none => rfl
  | some prices => exact findPos_eq (priceOptions prices)

/-- C2.  A trigger that fires while a cycle is running (the `isRunning`
flag is set) returns `false` immediately with the state untouched: no
listing event, no fetch, no write of any kind is appended to the trace,
and nothing is queued — the dropped trigger leaves no mark for later
execution, so the in-flight cycle (the holder of the flag) continues
unaffected and is never joined by a second running cycle. -/
theorem c2_trigger_dropped_while_running (env : Env) (attempt : Nat)
    (s : TrackerState) (h : s.isRunning = true) :
    recordPricesWithRetry env attempt s = (false, s) :=
  rpwr_of_isRunning env attempt s h

/-- Witness for C2 at a concrete running state and environment. -/
theorem c2_trigger_dropped_while_running_witness :
    (TrackerState.mk true [] : TrackerState).isRunning = true
    ∧ recordPricesWithRetry envAllFail 1 ⟨true, []⟩ = (false, ⟨true, []⟩) :=
  ⟨rfl, c2_trigger_dropped_while_running envAllFail 1 ⟨true, []⟩ rfl⟩

/-- C9.  Every top-level invocation restores the `isRunning` flag it found:
an invocation that actually runs (started while idle) ends with the flag
`false` again on every path — success, throw-then-retry, retries
exhausted — because the `finally` clause guards each of them, and a
skipped invocation leaves the flag of the in-flight holder alone (first
conjunct, stated as flag preservation for every start state).  Moreover a
cycle started from idle behaves independently of any previously
accumulated history: its result and the effects it appends are those of a
fresh run from the empty trace (second and third conjuncts) — there is no
persistent failed state carried between cycles. -/
theorem c9_flag_restored_and_stateless (env : Env) (attempt : Nat)
    (s : TrackerState) (t : List Ev) :
    (recordPricesWithRetry env attempt s).2.isRunning = s.isRunning
    ∧ (recordPricesWithRetry env attempt ⟨false, t⟩).1
        = (recordPricesWithRetry env attempt ⟨false, []⟩).1
    ∧ (recordPricesWithRetry env attempt ⟨false, t⟩).2.trace
        = t ++ (recordPricesWithRetry env attempt ⟨false, []⟩).2.trace := by
  refine ⟨?_, ?_, ?_⟩
  · obtain ⟨b, tr⟩ := s
    cases b with
    | true => rw [rpwr_of_isRunning env attempt _ rfl]
    | false => rw [rpwr_idle_step]; split_ifs <;> rfl
  · rw [rpwr_idle_step, rpwr_idle_step]; split_ifs <;> rfl
  · rw [rpwr_idle_step, rpwr_idle_step]; split_ifs <;> simp

/-- C1.  Evaluation of the cycle on a non-empty tracked-card list whose
only card rejects on every attempt: the run performs exactly ONE full
fetch pass (one `listCards`, one fetch), waits the retry delay once, and
returns `false` — not the `MAX_RETRIES = 5` passes the retry policy
promises.  The recursive retry call is evaluated inside `catch` before
`finally` clears `isRunning`, so it is swallowed by the mutex guard and no
second attempt ever starts. -/
theorem c1_retries_swallowed_by_mutex :
    recordPricesWithRetry envAllFail 1 ⟨false, []⟩
      = (false, ⟨false, [Ev.listCards, Ev.fetchCard 1 "card-1",
          Ev.delayMs RETRY_DELAY_MS]⟩)
    ∧ MAX_RETRIES = 5
    ∧ ([Ev.listCards, Ev.fetchCard 1 "card-1",
        Ev.delayMs RETRY_DELAY_MS].filter
          (fun ev => ev = Ev.listCards)).length = 1 := by
  have hA : attemptResult envAllFail 1
      = (true, [Ev.listCards, Ev.fetchCard 1 "card-1"]) := by decide
  refine ⟨?_, rfl, by decide⟩
  rw [rpwr_idle_step, hA]
  simp [MAX_RETRIES]

/-- C3.  Within one attempt: the failed list collects exactly the cards
whose fetch or write rejected (first conjunct), every listed card is still
fetched regardless of earlier failures (second conjunct), the
price-history writes of the cards that succeeded are all performed, in
order (third conjunct), and when the failed list is non-empty the whole
attempt throws to the retry layer while its events — including those
successful writes, which are never rolled back — stand (fourth
conjunct). -/
theorem c3_per_card_failure_isolation (env : Env) (a : Nat) :
    (fetchLoop env a env.cards).failed
        = env.cards.filter (fun c => (env.fetch a c).isNone)
    ∧ fetchedCards (fetchLoop env a env.cards).events = env.cards
    ∧ cardWrites (fetchLoop env a env.cards).events
        = env.cards.filterMap (fun c =>
            (env.fetch a c).map (fun p => (c, toFixed2 p)))
    ∧ ((fetchLoop env a env.cards).failed ≠ [] →
        attemptResult env a
          = (true, Ev.listCards :: (fetchLoop env a env.cards).events)) :=
  ⟨fetchLoop_failed env a env.cards, fetchLoop_fetched env a env.cards,
    fetchLoop_writes env a env.cards, attemptResult_of_failed env a⟩

/-- Witness for C3: with cardA fetching at $10 and cardB rejecting, the
failed list is non-empty and the attempt throws while keeping its events
(cardA was fetched, written at 10.00, and followed by the rate-limit
delay). -/
theorem c3_per_card_failure_isolation_witness :
    (fetchLoop envMixed 1 envMixed.cards).failed ≠ []
    ∧ attemptResult envMixed 1
        = (true, Ev.listCards :: (fetchLoop envMixed 1 envMixed.cards).events) :=
  ⟨by decide, (c3_per_card_failure_isolation envMixed 1).2.2.2 (by decide)⟩

/-- C4.  An attempt whose fetch loop reports no failure makes the cycle
return `true` no matter what the per-user valuation phase does — the
statement quantifies over every environment, hence over every pattern of
per-user rejections (first conjunct); a throwing attempt never reaches the
valuation phase: its events contain no batch update and no value write
(second conjunct); and a non-rejecting user gets its portfolio-value
write even when other users reject, so per-user errors block nobody else
(third conjunct). -/
theorem c4_valuation_best_effort (env : Env) (s : TrackerState) :
    (s.isRunning = false → (∀ c ∈ env.cards, (env.fetch 1 c).isSome) →
        (recordPricesWithRetry env 1 s).1 = true)
    ∧ (∀ a : Nat, (fetchLoop env a env.cards).failed ≠ [] →
        attemptResult env a
            = (true, Ev.listCards :: (fetchLoop env a env.cards).events)
          ∧ ∀ ev ∈ (fetchLoop env a env.cards).events, isValuationEv ev = false)
    ∧ (∀ (a : Nat) (pm : List (String × ℚ)) (u : String), u ∈ env.users →
        env.userFail a u = false →
        Ev.writeValue u (toFixed2 (valuateUser pm u (env.holdings u)).2)
          ∈ valuationPhase env a pm) := by
  refine ⟨?_, ?_, ?_⟩
  · intro hs hall
    obtain ⟨b, tr⟩ := s
    simp only [TrackerState.isRunning] at hs
    subst hs
    rw [rpwr_idle_step]
    have hb : ¬((attemptResult env 1).1 = true) := by
      rw [attemptResult_throws_iff, fetchLoop_failed]
      intro hne
      apply hne
      rw [List.filter_eq_nil_iff]
      intro c hc
      have hsome := hall c hc
      intro hnone
      rw [Option.isNone_iff_eq_none] at hnone
      rw [hnone] at hsome
      simp at hsome
    simp only [Bool.not_eq_true] at hb
    simp [hb]
  · intro a hf
    refine ⟨attemptResult_of_failed env a hf, ?_⟩
    intro ev hev
    rcases fetchLoop_events_shape env a env.cards ev hev with
      ⟨c, _, rfl⟩ | ⟨c, p, _, rfl⟩ | rfl <;> rfl
  · intro a pm u hu hf
    unfold valuationPhase
    exact valuationUsers_writeValue_mem env a pm env.users u hu hf

/-- Witness for C4: one card always fetching at $10 while the single
user rejects in every valuation attempt — the cycle still returns
`true`. -/
theorem c4_valuation_best_effort_witness :
    (TrackerState.mk false [] : TrackerState).isRunning = false
    ∧ (∀ c ∈ envOk.cards, (envOk.fetch 1 c).isSome)
    ∧ (recordPricesWithRetry envOk 1 ⟨false, []⟩).1 = true :=
  ⟨rfl, by decide,
    (c4_valuation_best_effort envOk ⟨false, []⟩).1 rfl (by decide)⟩

/-- C6.  For every price map, user and holding list: the queued
price-update rows are exactly the holdings whose card id is in the price
map, in order, each as (holding id, user id, price formatted to two
decimals); the total value sums `price * quantity` over exactly those
holdings, so a holding missing from the price map is excluded from both;
and the spec example — holdings {cardA: qty 2, cardB: qty 3} against
PriceMap {cardA: $10, cardB: $20} — yields updates
[(idA, userId, 10.00), (idB, userId, 20.00)] and total $80. -/
theorem c6_per_user_valuation (pm : List (String × ℚ)) (u : String)
    (hs : List Holding) :
    (valuateUser pm u hs).1
        = hs.filterMap (fun h => (mapGet pm h.cardId).map
            (fun p => (h.id, u, toFixed2 p)))
    ∧ (valuateUser pm u hs).2
        = (hs.filterMap (fun h => (mapGet pm h.cardId).map
            (fun p => p * (h.quantity : ℚ)))).sum
    ∧ valuateUser [("cardA", 10), ("cardB", 20)] "user-1"
          [⟨"idA", "cardA", 2⟩, ⟨"idB", "cardB", 3⟩]
        = ([("idA", "user-1", "10.00"), ("idB", "user-1", "20.00")], 80) := by
  refine ⟨?_, ?_, ?_⟩
  · rw [valuateUser, valuateFrom_spec]; simp
  · rw [valuateUser, valuateFrom_spec]; simp
  · have h1 : (valuateUser [("cardA", 10), ("cardB", 20)] "user-1"
        [⟨"idA", "cardA", 2⟩, ⟨"idB", "cardB", 3⟩]).1
        = [("idA", "user-1", "10.00"), ("idB", "user-1", "20.00")] := by decide
    have h2 : (valuateUser [("cardA", 10), ("cardB", 20)] "user-1"
        [⟨"idA", "cardA", 2⟩, ⟨"idB", "cardB", 3⟩]).2 = 80 := by
      rw [valuateUser, valuateFrom_spec]
      have hA : mapGet [("cardA", (10 : ℚ)), ("cardB", 20)] "cardA"
          = Option.some 10 := by decide
      have hB : mapGet [("cardA", (10 : ℚ)), ("cardB", 20)] "cardB"
          = Option.some 20 := by decide
      simp [hA, hB]
      norm_num
    exact Prod.ext h1 h2

/-- The `[today, tomorrow)` millisecond window computed by the history
writers is exactly the set of timestamps sharing the Chicago calendar day
of `now`. -/
theorem day_range_iff (now t : Nat) :
    (chicagoDay now * MS_PER_DAY ≤ t ∧ t < chicagoDay now * MS_PER_DAY + MS_PER_DAY)
      ↔ chicagoDay t = chicagoDay now := by
  unfold chicagoDay MS_PER_DAY
  omega

/-- The delete-then-insert body in terms of calendar days: drop every
record of this key on the day of `now`, append the fresh record. -/
theorem dayBucketUpsert_eq (key v : String) (now : Nat)
    (tbl : List HistRecord) :
    dayBucketUpsert key v now tbl
      = tbl.filter (fun r => ¬ sameKeyDay key (chicagoDay now) r)
        ++ [⟨key, v, now⟩] := by
  unfold dayBucketUpsert
  dsimp only
  congr 1
  apply List.filter_congr
  intro r _
  apply decide_eq_decide.mpr
  unfold sameKeyDay
  constructor
  · intro h hc
    exact h ⟨hc.1, (day_range_iff now r.recordedAt).mpr hc.2⟩
  · intro h hc
    exact h ⟨hc.1, (day_range_iff now r.recordedAt).mp hc.2⟩

/-- Two same-day writes to the same key leave exactly one record for that
(key, day): the second one.  Records of other keys or other days are
untouched. -/
theorem upsert_twice_same_day (key v1 v2 : String) (t1 t2 : Nat)
    (tbl : List HistRecord) (hday : chicagoDay t1 = chicagoDay t2) :
    ((dayBucketUpsert key v2 t2 (dayBucketUpsert key v1 t1 tbl)).filter
        (fun r => sameKeyDay key (chicagoDay t2) r) = [⟨key, v2, t2⟩])
    ∧ ((dayBucketUpsert key v2 t2 (dayBucketUpsert key v1 t1 tbl)).filter
        (fun r => ¬ sameKeyDay key (chicagoDay t2) r)
        = tbl.filter (fun r => ¬ sameKeyDay key (chicagoDay t2) r)) := by
  rw [dayBucketUpsert_eq, dayBucketUpsert_eq, hday]
  have hold : sameKeyDay key (chicagoDay t2) ⟨key, v1, t1⟩ := ⟨rfl, hday⟩
  have hnew : sameKeyDay key (chicagoDay t2) ⟨key, v2, t2⟩ := ⟨rfl, rfl⟩
  constructor
  · simp [List.filter_append, List.filter_filter, hold, hnew, decide_not]
  · simp [List.filter_append, List.filter_filter, hold, hnew, decide_not]

/-- C7.  Writing twice for the same key on the same Chicago calendar day —
through `recordCardPrice` for a card, or `recordPortfolioValue` for a
user — leaves exactly one history record for that (key, day), holding the
second value (with its timestamp), while every record of another key or
another Chicago day survives unchanged. -/
theorem c7_one_record_per_key_day (key v1 v2 : String) (t1 t2 : Nat)
    (tbl : List HistRecord) (hday : chicagoDay t1 = chicagoDay t2) :
    ((recordCardPrice key v2 t2 (recordCardPrice key v1 t1 tbl)).filter
        (fun r => sameKeyDay key (chicagoDay t2) r) = [⟨key, v2, t2⟩])
    ∧ ((recordCardPrice key v2 t2 (recordCardPrice key v1 t1 tbl)).filter
        (fun r => ¬ sameKeyDay key (chicagoDay t2) r)
        = tbl.filter (fun r => ¬ sameKeyDay key (chicagoDay t2) r))
    ∧ ((recordPortfolioValue key v2 t2 (recordPortfolioValue key v1 t1 tbl)).filter
        (fun r => sameKeyDay key (chicagoDay t2) r) = [⟨key, v2, t2⟩])
    ∧ ((recordPortfolioValue key v2 t2 (recordPortfolioValue key v1 t1 tbl)).filter
        (fun r => ¬ sameKeyDay key (chicagoDay t2) r)
        = tbl.filter (fun r => ¬ sameKeyDay key (chicagoDay t2) r)) :=
  ⟨(upsert_twice_same_day key v1 v2 t1 t2 tbl hday).1,
   (upsert_twice_same_day key v1 v2 t1 t2 tbl hday).2,
   (upsert_twice_same_day key v1 v2 t1 t2 tbl hday).1,
   (upsert_twice_same_day key v1 v2 t1 t2 tbl hday).2⟩

/-- Witness for C7: two writes for card c1 at Chicago-local noon
(43200000 ms) and 1 pm (46800000 ms) of day 0, over a table holding one
record of another day (recordedAt one full day later). -/
theorem c7_one_record_per_key_day_witness :
    chicagoDay 43200000 = chicagoDay 46800000
    ∧ (((recordCardPrice "c1" "2.00" 46800000
          (recordCardPrice "c1" "1.00" 43200000
            [⟨"c1", "9.00", 86400000⟩])).filter
          (fun r => sameKeyDay "c1" (chicagoDay 46800000) r)
            = [⟨"c1", "2.00", 46800000⟩])
        ∧ ((recordCardPrice "c1" "2.00" 46800000
            (recordCardPrice "c1" "1.00" 43200000
              [⟨"c1", "9.00", 86400000⟩])).filter
            (fun r => ¬ sameKeyDay "c1" (chicagoDay 46800000) r)
              = [⟨"c1", "9.00", 86400000⟩].filter
                  (fun r => ¬ sameKeyDay "c1" (chicagoDay 46800000) r))
        ∧ ((recordPortfolioValue "c1" "2.00" 46800000
            (recordPortfolioValue "c1" "1.00" 43200000
              [⟨"c1", "9.00", 86400000⟩])).filter
            (fun r => sameKeyDay "c1" (chicagoDay 46800000) r)
              = [⟨"c1", "2.00", 46800000⟩])
        ∧ ((recordPortfolioValue "c1" "2.00" 46800000
            (recordPortfolioValue "c1" "1.00" 43200000
              [⟨"c1", "9.00", 86400000⟩])).filter
            (fun r => ¬ sameKeyDay "c1" (chicagoDay 46800000) r)
              = [⟨"c1", "9.00", 86400000⟩].filter
                  (fun r => ¬ sameKeyDay "c1" (chicagoDay 46800000) r))) :=
  ⟨by decide,
    c7_one_record_per_key_day "c1" "1.00" "2.00" 43200000 46800000
      [⟨"c1", "9.00", 86400000⟩] (by decide)⟩

/-- C8 (amended).  `updatePortfolioCard` and `deletePortfolioCard` only
touch rows matching both `id` and `userId`; when no row matches (in
particular when the holding belongs to another user) neither operation
modifies or deletes any row, and update yields no result (`undefined`) —
but delete reports success (`true`) unconditionally rather than "not
found". -/
theorem c8_scoped_mutations (id userId : String) (u : RowUpdate)
    (tbl : List PRow) (h : ∀ r ∈ tbl, ¬ rowMatches id userId r) :
    updatePortfolioCard id userId u tbl = (Option.none, tbl)
    ∧ deletePortfolioCard id userId tbl = (true, tbl) := by
  constructor
  · unfold updatePortfolioCard
    have hfil : tbl.filter (fun r => rowMatches id userId r) = [] := by
      rw [List.filter_eq_nil_iff]
      intro r hr
      simpa using h r hr
    refine Prod.ext ?_ ?_
    · simp [hfil]
    · show tbl.map _ = tbl
      have : ∀ r ∈ tbl,
          (if rowMatches id userId r then applyUpdate u r else r) = r := by
        intro r hr
        simp [h r hr]
      calc tbl.map (fun r => if rowMatches id userId r then applyUpdate u r else r)
          = tbl.map (fun r => r) := List.map_congr_left this
        _ = tbl := List.map_id' tbl
  · unfold deletePortfolioCard
    refine Prod.ext rfl ?_
    show tbl.filter _ = tbl
    rw [List.filter_eq_self]
    intro r hr
    simpa using h r hr

/-- Witness for C8 at a concrete table: the only row belongs to `u-bob`,
the caller passes user `alice`, nothing matches. -/
theorem c8_scoped_mutations_witness :
    (∀ r ∈ [rowBob], ¬ rowMatches "h1" "alice" r)
    ∧ (updatePortfolioCard "h1" "alice" {} [rowBob] = (Option.none, [rowBob])
       ∧ deletePortfolioCard "h1" "alice" [rowBob] = (true, [rowBob])) :=
  ⟨by decide, c8_scoped_mutations "h1" "alice" {} [rowBob] (by decide)⟩

/-- C8 counterexample to the claim as stated: with no matching holding
(the row belongs to `u-bob`, the caller is user `alice`),
`deletePortfolioCard` reports success — it returns `true` unconditionally
(src/server/storage.ts:136) — rather than reporting "not found". -/
theorem c8_delete_never_reports_not_found :
    (∀ r ∈ [rowBob], ¬ rowMatches "h1" "alice" r)
    ∧ (deletePortfolioCard "h1" "alice" [rowBob]).1 = true := by
  exact ⟨by decide, rfl⟩

/-- C10.  A portfolio row with a NULL owner still feeds the price-fetch
side of a cycle but never the valuation side: its card id is listed by
`getAllUniqueCardIds` (first conjunct) and, when its fetch succeeds, its
card-price history write is performed by the cycle (second conjunct);
yet every portfolio-scoped effect of the cycle — batch `currentPrice`
updates, each row of which is matched by `(id, userId)` with a concrete
user id, and portfolio-value history writes — is owned by a user id
produced by `getAllUsersWithPortfolios` (third conjunct), and the NULL
row satisfies `userId = some uid` for none of them (fourth conjunct):
such holdings receive no `currentPrice` update and no portfolio-value
record is written for them. -/
theorem c10_null_owner_rows (tbl : List PRow) (users : List UserRow)
    (fetch : Nat → String → Option ℚ) (userFail : Nat → String → Bool)
    (row : PRow) (hmem : row ∈ tbl) (hnull : row.userId = Option.none) :
    row.cardId ∈ (envOfDb tbl users fetch userFail).cards
    ∧ (∀ p : ℚ, fetch 1 row.cardId = Option.some p →
        Ev.writeCardPrice row.cardId (toFixed2 p)
          ∈ (recordPricesWithRetry (envOfDb tbl users fetch userFail) 1
              ⟨false, []⟩).2.trace)
    ∧ (∀ ev ∈ (recordPricesWithRetry (envOfDb tbl users fetch userFail) 1
          ⟨false, []⟩).2.trace,
        evOwnedBy (envOfDb tbl users fetch userFail).users ev)
    ∧ (∀ uid ∈ (envOfDb tbl users fetch userFail).users,
        row.userId ≠ Option.some uid) := by
  have hcard : row.cardId ∈ (envOfDb tbl users fetch userFail).cards := by
    show row.cardId ∈ getAllUniqueCardIds tbl
    unfold getAllUniqueCardIds
    exact List.mem_dedup.mpr (List.mem_map_of_mem _ hmem)
  refine ⟨hcard, ?_, ?_, ?_⟩
  · intro p hp
    apply rpwr_mem_attempt_events
    exact attemptResult_write_mem (envOfDb tbl users fetch userFail) 1 hcard hp
  · exact rpwr_trace_owned (envOfDb tbl users fetch userFail) _
      (fun u hu => hu) 1 []
      (fun ev hev => absurd hev (List.not_mem_nil ev))
  · intro uid _
    rw [hnull]
    exact fun hcontra => Option.noConfusion hcontra

/-- Witness for C10: a two-row table — `rowNull` (NULL owner) and
`rowBob` (owned by `u-bob`) — with every fetch succeeding at $10. -/
theorem c10_null_owner_rows_witness :
    rowNull ∈ [rowNull, rowBob]
    ∧ rowNull.userId = Option.none
    ∧ rowNull.cardId ∈ (envOfDb [rowNull, rowBob] usersDb
        (fun _ _ => Option.some 10) (fun _ _ => false)).cards :=
  ⟨by decide, rfl,
    (c10_null_owner_rows [rowNull, rowBob] usersDb
      (fun _ _ => Option.some 10) (fun _ _ => false) rowNull
      (by decide) rfl).1⟩

end PokePortfolio
